import Mathlib

/-!
Shallow embedding of the core of the oscap-anaconda-addon repository:

* `org_fedora_oscap/data_fetch.py` — a minimal HTTP/HTTPS fetcher that
  opens a socket, sends one GET request, strips the response headers by
  scanning fixed-size chunks for the `\r\n\r\n` terminator and streams the
  body to a file;
* `org_fedora_oscap/ks/oscap.py` — the `OSCAPdata` kickstart add-on class
  (serialisation to the `%addon` section and line-by-line parsing back).

Byte/character strings are modelled as `List Char`; the stateful socket is
modelled as a list of read outcomes; the file system as a list of existing
directories.  Every definition is translated from the Python source.
-/

namespace Oscap

/-! ### Python string primitives -/

/-- The characters Python's `str.strip()` removes. -/
def pySpace (c : Char) : Bool :=
  c = ' ' || c = '\t' || c = '\n' || c = '\r' || c = '\x0b' || c = '\x0c'

/-- Python `s.strip(chars)`: drop leading and trailing characters
satisfying `p` (left strip followed by right strip). -/
def stripP (p : Char → Bool) (s : List Char) : List Char :=
  (((s.dropWhile p).reverse).dropWhile p).reverse

/-- Python `s.strip()` (whitespace). -/
def stripWs (s : List Char) : List Char := stripP pySpace s

/-- Python `s.strip('"')`. -/
def stripQuotes (s : List Char) : List Char := stripP (fun c => c = '"') s

/-! ### data_fetch.py: header stripping -/

/-- The four-character HTTP header terminator CR LF CR LF. -/
def TERM : List Char := ['\r', '\n', '\r', '\n']

/-- The scan inside `re.search("\r\n\r\n", data)` (data_fetch.py line 97):
returns the text after the end of the first (leftmost) occurrence of the
terminator, or `none` when there is no occurrence. -/
def dropAfterTerm : List Char → Option (List Char)
  | [] => none
  | c :: cs =>
    if (c :: cs).take 4 = TERM then some ((c :: cs).drop 4)
    else dropAfterTerm cs

/-- `org_fedora_oscap.data_fetch._throw_away_headers` (lines 84-108):
`(False, "")` when the terminator is absent, otherwise `(True, rest)` where
`rest` is everything after the first terminator (the source's two `DONE`
branches both return `data[match.end():]`, the second one spelled `""`). -/
def throw_away_headers (data : List Char) : Bool × List Char :=
  match dropAfterTerm data with
  | none => (false, [])
  | some rest => (true, rest)

/-- Specification-side predicate: the terminator occurs at index `i`. -/
def TermAt (data : List Char) (i : Nat) : Prop :=
  (data.drop i).take 4 = TERM

instance (data : List Char) (i : Nat) : Decidable (TermAt data i) := by
  unfold TermAt; infer_instance

/-! ### data_fetch.py: the abstract transport and the fetch loop -/

/-- Outcome of one `sock.read(READ_BYTES)` call. -/
inductive ReadRes
  | chunk (data : List Char)
  | ioError
deriving DecidableEq

/-- Outcome of `sock.connect` (line 155). -/
inductive ConnectOutcome
  | ok
  | sslError
  | osError
deriving DecidableEq

/-- Abstract transport: what each I/O step of one fetch would do.  Once
`reads` is exhausted every further read returns the empty string (a closed
connection keeps reporting end of stream). -/
structure Conn where
  connectOutcome : ConnectOutcome
  writeOk : Bool
  reads : List ReadRes
deriving DecidableEq

/-- Observable side effects of one fetch, in order. -/
inductive Event
  | mkdirs (d : List Char)
  | sockConnect
  | sockWriteReq
  | sockRead
  | fileOpen
  | fileWrite (data : List Char)
  | fileClose
  | sockClose
deriving DecidableEq

/-- How one call of the fetcher ends. -/
inductive FetchResult
  | ok (body : List Char)
  | wrongRequest
  | unknownURLformat
  | certValidationError
  | fetchError
  | uncaughtOSError
  | hang
deriving DecidableEq

/-- Lines 176-179: `with open(out_file, "w")` plus the write loop, entered
with the file already opened.  `body` accumulates the bytes written so far.
A read raising IOError propagates out of the with-block (which closes the
file) into the `except IOError` of line 180, i.e. `FetchError`. -/
def writeLoop : List ReadRes → List Char → List Char → List Event →
    FetchResult × List Event
  | _, [], body, evs => (.ok body, evs ++ [.fileClose])
  | reads, data, body, evs =>
    match reads with
    | [] => (.ok (body ++ data), evs ++ [.fileWrite data, .sockRead, .fileClose])
    | .ioError :: _ =>
      (.fetchError, evs ++ [.fileWrite data, .sockRead, .fileClose])
    | .chunk d :: rs => writeLoop rs d (body ++ data) (evs ++ [.fileWrite data, .sockRead])

/-- Lines 174-176: `data = rest or sock.read(READ_BYTES)` followed by
`open(out_file, "w")`.  When `rest` is empty one more read happens before
the file is opened. -/
def bodyStart : List Char → List ReadRes → List Event → FetchResult × List Event
  | [], reads, evs =>
    match reads with
    | [] => writeLoop [] [] [] (evs ++ [.sockRead, .fileOpen])
    | .ioError :: _ => (.fetchError, evs ++ [.sockRead])
    | .chunk d :: rs => writeLoop rs d [] (evs ++ [.sockRead, .fileOpen])
  | rest, reads, evs => writeLoop reads rest [] (evs ++ [.fileOpen])

/-- Lines 166-172: the first read and the `while not done` header loop.
When the socket is exhausted, every further read returns the empty string
and `_throw_away_headers("")` is `(False, "")`, so the loop never exits:
modelled as the `hang` result. -/
def headerLoop : List ReadRes → List Event → FetchResult × List Event
  | [], evs => (.hang, evs ++ [.sockRead])
  | .ioError :: _, evs => (.fetchError, evs ++ [.sockRead])
  | .chunk d :: rs, evs =>
    match throw_away_headers d with
    | (true, rest) => bodyStart rest rs (evs ++ [.sockRead])
    | (false, _) => headerLoop rs (evs ++ [.sockRead])

/-- The whole guarded block of `_fetch_http_data`, lines 164-182. -/
def streamBody (reads : List ReadRes) : FetchResult × List Event :=
  headerLoop reads []

/-! ### data_fetch.py: URL regex and argument checks -/

def SCHEME_HTTP : List Char := ['h', 't', 't', 'p']

def SCHEME_HTTPS : List Char := ['h', 't', 't', 'p', 's']

/-- The three characters of the scheme separator. -/
def SEP : List Char := [':', '/', '/']

/-- What `[^/]+` consumes: the maximal (possibly empty here; emptiness is
rejected at the use site) run without `'/'`. -/
def takeNoSlash : List Char → List Char
  | [] => []
  | c :: cs => if c = '/' then [] else c :: takeNoSlash cs

/-- The rest of the input from the first `'/'` on (empty when there is
none). -/
def dropToSlash : List Char → List Char
  | [] => []
  | c :: cs => if c = '/' then c :: cs else dropToSlash cs

/-- What `.*` consumes: everything up to, excluding, the first newline. -/
def takeLine : List Char → List Char
  | [] => []
  | c :: cs => if c = '\n' then [] else c :: takeLine cs

/-- `URL_RE.match(url)` for `URL_RE_STR = r"(https?)://([^/]+)(/.*)"`
(lines 20-21, 131).  `re.match` anchors at the start only; `([^/]+)` is the
maximal nonempty run without `'/'` (a newline is allowed there); `.` does
not match a newline, so `(/.*)` is `'/'` plus the rest up to, excluding,
the first newline — trailing input beyond that still yields a match. -/
def urlReMatch (url : List Char) :
    Option (List Char × List Char × List Char) :=
  let parse : List Char → List Char →
      Option (List Char × List Char × List Char) := fun scheme rest =>
    let host := takeNoSlash rest
    match dropToSlash rest with
    | '/' :: r =>
      if host = [] then none
      else some (scheme, host, '/' :: takeLine r)
    | _ => none
  if (SCHEME_HTTPS ++ SEP).isPrefixOf url then
    parse SCHEME_HTTPS (url.drop 8)
  else if (SCHEME_HTTP ++ SEP).isPrefixOf url then
    parse SCHEME_HTTP (url.drop 7)
  else none

/-- Python truthiness of the `ca_certs` argument: `None` and the empty
string are both falsy (lines 141 and 151 test `if ca_certs`). -/
def optTruthy : Option (List Char) → Bool
  | none => false
  | some s => !s.isEmpty

/-- `org_fedora_oscap.data_fetch._fetch_http_data` (lines 110-182) over the
abstract transport.  The checks mirror the source order: URL regex, empty
`out_file`, `ca_certs` with a non-https scheme; then `sock.connect`, where
only `ssl.SSLError` is caught (line 156) — any other OS/socket error
propagates uncaught; then the unguarded request write (line 161), whose
IOError also propagates uncaught; then the guarded read/write block. -/
def fetchHttpData (url outFile : List Char) (caCerts : Option (List Char))
    (conn : Conn) : FetchResult × List Event :=
  match urlReMatch url with
  | none => (.wrongRequest, [])
  | some (protocol, _server, _path) =>
    if outFile = [] then (.wrongRequest, [])
    else if optTruthy caCerts = true ∧ protocol ≠ SCHEME_HTTPS then
      (.wrongRequest, [])
    else
      match conn.connectOutcome with
      | .sslError => (.certValidationError, [.sockConnect])
      | .osError => (.uncaughtOSError, [.sockConnect])
      | .ok =>
        if conn.writeOk then
          ((streamBody conn.reads).1,
            [.sockConnect, .sockWriteReq] ++ (streamBody conn.reads).2)
        else (.uncaughtOSError, [.sockConnect, .sockWriteReq])

/-! ### data_fetch.py: fetch_data and the file system -/

/-- `posixpath.dirname`: everything up to the last `'/'`; trailing slashes
are stripped unless the result is all slashes; no `'/'` gives `""`. -/
def dirname (p : List Char) : List Char :=
  let head := (p.reverse.dropWhile (fun c => c ≠ '/')).reverse
  if head ≠ [] ∧ head.any (fun c => c ≠ '/') then
    (head.reverse.dropWhile (fun c => c = '/')).reverse
  else head

/-- `os.path.isdir` over the abstract file system (a list of existing
directories); `isdir("")` is always `False`. -/
def isdir (fs : List (List Char)) (d : List Char) : Bool :=
  !d.isEmpty && fs.contains d

/-- `url.startswith("http://") or url.startswith("https://")` (line 78). -/
def httpOrHttps (url : List Char) : Bool :=
  (SCHEME_HTTP ++ SEP).isPrefixOf url || (SCHEME_HTTPS ++ SEP).isPrefixOf url

/-- Lines 78-82 of `fetch_data`: classify the URL by scheme and either
run `_fetch_http_data` or raise `UnknownURLformatError`; `fs2` and `evs`
are the file system and the trace as left by the directory-creation
step. -/
def classifyURL (url outFile : List Char) (caCerts : Option (List Char))
    (conn : Conn) (fs2 : List (List Char)) (evs : List Event) :
    FetchResult × List Event × List (List Char) :=
  if httpOrHttps url then
    ((fetchHttpData url outFile caCerts conn).1,
      evs ++ (fetchHttpData url outFile caCerts conn).2, fs2)
  else (.unknownURLformat, evs, fs2)

/-- `org_fedora_oscap.data_fetch.fetch_data` (lines 53-82).  `os.makedirs`
is modelled as adding the directory to the file-system set; per Python
semantics `os.makedirs('')` always raises `OSError` (errno 2), which this
function does not catch; other makedirs failure modes (permissions, races)
are outside the model, matching the claims' "provided directory creation
itself succeeds" proviso.  Returns the result, the event trace and the
resulting file system. -/
def fetchData (url outFile : List Char) (caCerts : Option (List Char))
    (fs : List (List Char)) (conn : Conn) :
    FetchResult × List Event × List (List Char) :=
  let d := dirname outFile
  if isdir fs d then classifyURL url outFile caCerts conn fs []
  else if d = [] then (.uncaughtOSError, [], fs)
  else classifyURL url outFile caCerts conn (d :: fs) [.mkdirs d]

/-! ### ks/oscap.py: the OSCAPdata kickstart add-on data -/

/-- First element of `SUPPORTED_CONTENT_TYPES` (line 37). -/
def kDatastream : List Char := ['d', 'a', 't', 'a', 's', 't', 'r', 'e', 'a', 'm']

/-- Second element of `SUPPORTED_CONTENT_TYPES` (line 37). -/
def kRPM : List Char := ['R', 'P', 'M']

/-- Keys of the `actions` table in `handle_line` (lines 166-174). -/
def keyContentType : List Char :=
  ['c', 'o', 'n', 't', 'e', 'n', 't', '-', 't', 'y', 'p', 'e']

def keyContentUrl : List Char :=
  ['c', 'o', 'n', 't', 'e', 'n', 't', '-', 'u', 'r', 'l']

def keyDatastreamId : List Char :=
  ['d', 'a', 't', 'a', 's', 't', 'r', 'e', 'a', 'm', '-', 'i', 'd']

def keyProfile : List Char := ['p', 'r', 'o', 'f', 'i', 'l', 'e']

def keyXccdfId : List Char := ['x', 'c', 'c', 'd', 'f', '-', 'i', 'd']

def keyXccdfPath : List Char := ['x', 'c', 'c', 'd', 'f', '-', 'p', 'a', 't', 'h']

def keyCpePath : List Char := ['c', 'p', 'e', '-', 'p', 'a', 't', 'h']

def keyCertificates : List Char :=
  ['c', 'e', 'r', 't', 'i', 'f', 'i', 'c', 'a', 't', 'e', 's']

/-- The fields of `OSCAPdata` set in `__init__` (lines 55-77), in source
order. -/
structure OSCAPdata where
  content_type : List Char
  content_url : List Char
  datastream_id : List Char
  xccdf_id : List Char
  profile_id : List Char
  xccdf_path : List Char
  cpe_path : List Char
  content_name : List Char
  certificates : List Char
deriving DecidableEq

/-- A freshly constructed `OSCAPdata`: every field is the empty string. -/
def freshData : OSCAPdata := ⟨[], [], [], [], [], [], [], [], []⟩

/-- The two pykickstart exception classes the class raises. -/
inductive KsError
  | parseError
  | valueError
deriving DecidableEq

/-- Python `line.partition("=")`: the text before the first `'='` and the
text after it (both empty parts of the no-separator case collapse to the
pair `(line, "")`, which is how `handle_line` consumes the result). -/
def partitionEq : List Char → List Char × List Char
  | [] => ([], [])
  | c :: cs =>
    if c = '=' then ([], cs)
    else
      let (p, q) := partitionEq cs
      (c :: p, q)

/-- `value.rsplit("/", 1)[1]`: the text after the last `'/'`. -/
def afterLastSlash (s : List Char) : List Char :=
  (s.reverse.takeWhile (fun c => c ≠ '/')).reverse

/-- `OSCAPdata._parse_content_type` (lines 110-116). -/
def parseContentType (d : OSCAPdata) (value : List Char) :
    Except KsError OSCAPdata :=
  if value = kDatastream ∨ value = kRPM then
    .ok { d with content_type := value }
  else .error .valueError

/-- `OSCAPdata._parse_content_url` (lines 118-131).  With a supported
prefix the url is stored and `content_name` becomes the part after the
last `'/'`.  Since every supported prefix itself contains `'/'`, the
`len(parts) != 2` branch of the source is reachable only when the prefix
check already failed, so the source's in-place update before that dead
branch is not observable. -/
def parseContentUrl (d : OSCAPdata) (value : List Char) :
    Except KsError OSCAPdata :=
  if (SCHEME_HTTP ++ SEP).isPrefixOf value ∨
      (SCHEME_HTTPS ++ SEP).isPrefixOf value then
    if value.contains '/' then
      .ok { d with content_url := value, content_name := afterLastSlash value }
    else .error .valueError
  else .error .valueError

/-- The `actions` dispatch table of `handle_line` (lines 166-174, 182-186),
applied to the already-stripped key and value; an unknown key raises
`KickstartParseError`. -/
def dispatchKey (d : OSCAPdata) (pre post : List Char) :
    Except KsError OSCAPdata :=
  if pre = keyContentType then parseContentType d post
  else if pre = keyContentUrl then parseContentUrl d post
  else if pre = keyDatastreamId then .ok { d with datastream_id := post }
  else if pre = keyProfile then .ok { d with profile_id := post }
  else if pre = keyXccdfId then .ok { d with xccdf_id := post }
  else if pre = keyXccdfPath then .ok { d with xccdf_path := post }
  else if pre = keyCpePath then .ok { d with cpe_path := post }
  else if pre = keyCertificates then .ok { d with certificates := post }
  else .error .parseError

/-- `OSCAPdata.handle_line` (lines 156-186): strip the line, split at the
first `'='`, strip both parts, strip surrounding double quotes from the
value, and dispatch on the key. -/
def handle_line (d : OSCAPdata) (line : List Char) : Except KsError OSCAPdata :=
  let line' := stripWs line
  let pq := partitionEq line'
  dispatchKey d (stripWs pq.1) (stripQuotes (stripWs pq.2))

/-- One `key = value` line of `__str__` (`key_value_pair`, lines 86-87,
with the default indent of four spaces). -/
def kvLine (key value : List Char) : List Char :=
  [' ', ' ', ' ', ' '] ++ key ++ [' ', '=', ' '] ++ value

/-- The lines strictly between the `%addon` and `%end` lines of
`str(obj)` (`__str__`, lines 79-108), in source order: the optional lines
appear only when their field is non-empty. -/
def addonLines (d : OSCAPdata) : List (List Char) :=
  [kvLine keyContentType d.content_type, kvLine keyContentUrl d.content_url]
  ++ (if d.datastream_id ≠ [] then [kvLine keyDatastreamId d.datastream_id] else [])
  ++ (if d.xccdf_id ≠ [] then [kvLine keyXccdfId d.xccdf_id] else [])
  ++ (if d.xccdf_path ≠ [] then [kvLine keyXccdfPath d.xccdf_path] else [])
  ++ (if d.cpe_path ≠ [] then [kvLine keyCpePath d.cpe_path] else [])
  ++ [kvLine keyProfile d.profile_id]
  ++ (if d.certificates ≠ [] then [kvLine keyCertificates d.certificates] else [])

/-- Feeding lines one by one to `handle_line`, stopping at the first
exception, as the kickstart parser would. -/
def runLines : OSCAPdata → List (List Char) → Except KsError OSCAPdata
  | d, [] => .ok d
  | d, l :: ls =>
    match handle_line d l with
    | .ok d' => runLines d' ls
    | .error e => .error e

/-! ### Auxiliary definitions used by the statements -/

deriving instance DecidableEq for Except

/-- A response split into 1-byte read chunks. -/
def oneByteChunks (resp : List Char) : List (List Char) :=
  resp.map (fun c => [c])

/-- Error-free reads delivering exactly the given chunks. -/
def chunkReads (chunks : List (List Char)) : List ReadRes :=
  chunks.map ReadRes.chunk

/-- The conditions C10 places on a stored field value: no newline, no
leading or trailing whitespace, no leading or trailing double quote (the
edge conditions are phrased as the corresponding strips dropping
nothing). -/
def goodValue (v : List Char) : Prop :=
  '\n' ∉ v ∧
  v.dropWhile pySpace = v ∧ v.reverse.dropWhile pySpace = v.reverse ∧
  v.dropWhile (fun c => c = '"') = v ∧
  v.reverse.dropWhile (fun c => c = '"') = v.reverse

instance (v : List Char) : Decidable (goodValue v) := by
  unfold goodValue; infer_instance

/-- Facts about the concrete keys of the dispatch table needed to push a
`key = value` line through `handle_line`: nonempty, no surrounding
whitespace, and no `'='` inside. -/
def goodKey (k : List Char) : Prop :=
  k ≠ [] ∧ k.dropWhile pySpace = k ∧ k.reverse.dropWhile pySpace = k.reverse ∧
  '=' ∉ k

instance (k : List Char) : Decidable (goodKey k) := by
  unfold goodKey; infer_instance

/-! ## Theorems -/

lemma termAt_cons_succ (c : Char) (cs : List Char) (i : Nat) :
    TermAt (c :: cs) (i + 1) ↔ TermAt cs i := by
  simp [TermAt]

/-- C2: `_throw_away_headers` returns `(False, "")` exactly when the input
has no `\r\n\r\n`, and otherwise `(True, r)` with `r` the suffix after the
end of the first occurrence. -/
theorem throw_away_headers_first_occurrence (data : List Char) :
    ((∀ i, ¬ TermAt data i) → throw_away_headers data = (false, [])) ∧
    (∀ i, TermAt data i → (∀ j, j < i → ¬ TermAt data j) →
      throw_away_headers data = (true, data.drop (i + 4))) := by
  induction data with
  | nil =>
    constructor
    · intro _; rfl
    · intro i h _
      exact absurd h (by simp [TermAt, TERM])
  | cons c cs ih =>
    by_cases h0 : (c :: cs).take 4 = TERM
    · have htaw : throw_away_headers (c :: cs) = (true, (c :: cs).drop 4) := by
        simp [throw_away_headers, dropAfterTerm, h0]
      constructor
      · intro hnone
        exact absurd h0 (hnone 0)
      · intro i hi hleast
        rcases Nat.eq_zero_or_pos i with hz | hp
        · subst hz; simpa using htaw
        · exact absurd h0 (hleast 0 hp)
    · have hdrop : dropAfterTerm (c :: cs) = dropAfterTerm cs := by
        simp only [dropAfterTerm]
        rw [if_neg h0]
      have htaw : throw_away_headers (c :: cs) = throw_away_headers cs := by
        simp [throw_away_headers, hdrop]
      constructor
      · intro hnone
        rw [htaw]
        exact ih.1 (fun i => by
          have := hnone (i + 1)
          rwa [termAt_cons_succ] at this)
      · intro i hi hleast
        rcases Nat.eq_zero_or_pos i with hz | hp
        · subst hz; exact absurd hi h0
        · obtain ⟨i', rfl⟩ : ∃ i', i = i' + 1 :=
            ⟨i - 1, (Nat.succ_pred_eq_of_pos hp).symm⟩
          rw [htaw]
          have hi' : TermAt cs i' := (termAt_cons_succ c cs i').mp hi
          have hleast' : ∀ j, j < i' → ¬ TermAt cs j := by
            intro j hj hcontra
            exact hleast (j + 1) (by omega)
              ((termAt_cons_succ c cs j).mpr hcontra)
          have := ih.2 i' hi' hleast'
          rw [this]
          simp

/-- Witness for C2 at a concrete response: the first terminator starts at
index 1 and the returned rest is the suffix after it. -/
theorem throw_away_headers_first_occurrence_witness :
    throw_away_headers ['x', '\r', '\n', '\r', '\n', 'y'] = (true, ['y']) :=
  (throw_away_headers_first_occurrence
    ['x', '\r', '\n', '\r', '\n', 'y']).2 1 (by decide) (by decide)

/-! ### Lemmas about the fetch loop -/

lemma throw_away_headers_single (c : Char) :
    throw_away_headers [c] = (false, []) := by
  simp [throw_away_headers, dropAfterTerm, TERM]

lemma writeLoop_keep_evs :
    ∀ (reads : List ReadRes) (data body : List Char) (evs : List Event)
      (e : Event), e ∈ evs → e ∈ (writeLoop reads data body evs).2 := by
  intro reads
  induction reads with
  | nil =>
    intro data body evs e he
    cases data with
    | nil => simp [writeLoop, he]
    | cons d0 ds => simp [writeLoop, he]
  | cons r rs ih =>
    intro data body evs e he
    cases data with
    | nil => simp [writeLoop, he]
    | cons d0 ds =>
      cases r with
      | ioError => simp [writeLoop, he]
      | chunk d =>
        have := ih d (body ++ d0 :: ds)
          (evs ++ [.fileWrite (d0 :: ds), .sockRead]) e (by simp [he])
        simpa [writeLoop] using this

lemma writeLoop_join :
    ∀ (post : List (List Char)) (data body : List Char) (evs : List Event),
      data ≠ [] → (∀ c ∈ post, c ≠ []) →
      (writeLoop (chunkReads post) data body evs).1 =
        .ok (body ++ data ++ post.flatten) := by
  intro post
  induction post with
  | nil =>
    intro data body evs hd _
    cases data with
    | nil => exact absurd rfl hd
    | cons d0 ds => simp [chunkReads, writeLoop]
  | cons c t ih =>
    intro data body evs hd hall
    cases data with
    | nil => exact absurd rfl hd
    | cons d0 ds =>
      have hc : c ≠ [] := hall c (by simp)
      have := ih c (body ++ d0 :: ds)
        ((evs ++ [.fileWrite (d0 :: ds), .sockRead])) hc
        (fun x hx => hall x (by simp [hx]))
      simp only [chunkReads, List.map_cons, writeLoop] at this ⊢
      rw [this]
      simp

lemma headerLoop_skip :
    ∀ (pre : List (List Char)) (rs : List ReadRes) (evs : List Event),
      (∀ c ∈ pre, (throw_away_headers c).1 = false) →
      ∃ evs', headerLoop (chunkReads pre ++ rs) evs = headerLoop rs evs' ∧
        ∀ e ∈ evs, e ∈ evs' := by
  intro pre
  induction pre with
  | nil =>
    intro rs evs _
    exact ⟨evs, by simp [chunkReads], fun e he => he⟩
  | cons c t ih =>
    intro rs evs hall
    have hc : (throw_away_headers c).1 = false := hall c (by simp)
    obtain ⟨evs', h1, h2⟩ := ih rs (evs ++ [.sockRead])
      (fun y hy => hall y (by simp [hy]))
    refine ⟨evs', ?_, fun e he => h2 e (by simp [he])⟩
    have hc' : throw_away_headers c = (false, (throw_away_headers c).2) := by
      rw [← hc]
    simp only [chunkReads, List.map_cons, List.cons_append, headerLoop]
    rw [hc']
    exact h1

lemma chunkReads_nil : chunkReads [] = [] := rfl

lemma chunkReads_cons (c : List Char) (t : List (List Char)) :
    chunkReads (c :: t) = ReadRes.chunk c :: chunkReads t := rfl

lemma chunkReads_append (a b : List (List Char)) :
    chunkReads (a ++ b) = chunkReads a ++ chunkReads b := by
  simp [chunkReads]

lemma headerLoop_oneByte_hang (resp : List Char) :
    ∀ evs, (headerLoop (chunkReads (oneByteChunks resp)) evs).1 = .hang := by
  induction resp with
  | nil => intro evs; simp [oneByteChunks, chunkReads, headerLoop]
  | cons c t ih =>
    intro evs
    have : oneByteChunks (c :: t) = [c] :: oneByteChunks t := rfl
    rw [this, chunkReads_cons]
    simp only [headerLoop, throw_away_headers_single]
    exact ih (evs ++ [.sockRead])

/-- C1 (amended): when `_throw_away_headers` finds the terminator in the
whole response (returning remainder `rest`), feeding the response as one
single chunk reconstructs the body `rest`, but feeding it split into
1-byte chunks never completes the header phase — no chunk of length 1 can
contain the 4-byte terminator, each is discarded, and the loop keeps
reading at end of stream — so no body is reconstructed and the two feeds
never agree. -/
theorem one_byte_feed_no_body (resp rest : List Char)
    (h : throw_away_headers resp = (true, rest)) :
    (streamBody (chunkReads (oneByteChunks resp))).1 = .hang ∧
    (streamBody [ReadRes.chunk resp]).1 = .ok rest := by
  constructor
  · exact headerLoop_oneByte_hang resp []
  · simp only [streamBody, headerLoop, h]
    cases rest with
    | nil => simp [bodyStart, writeLoop]
    | cons r0 rt => simp [bodyStart, writeLoop]

/-- Witness for C1 (amended) at a concrete response. -/
theorem one_byte_feed_no_body_witness :
    (streamBody (chunkReads (oneByteChunks ['\r', '\n', '\r', '\n', 'x']))).1 =
      .hang ∧
    (streamBody [ReadRes.chunk ['\r', '\n', '\r', '\n', 'x']]).1 = .ok ['x'] :=
  one_byte_feed_no_body ['\r', '\n', '\r', '\n', 'x'] ['x'] (by decide)

/-- C1 counterexample: for the response `"\r\n\r\nab"` (which contains the
terminator) the 1-byte-chunk feed and the single-chunk feed do not yield
an identical reconstructed body: the former never terminates, the latter
returns the body `"ab"`. -/
theorem one_byte_feed_counterexample :
    (streamBody (chunkReads (oneByteChunks ['\r', '\n', '\r', '\n', 'a', 'b']))).1 =
      .hang ∧
    (streamBody [ReadRes.chunk ['\r', '\n', '\r', '\n', 'a', 'b']]).1 =
      .ok ['a', 'b'] ∧
    FetchResult.hang ≠ FetchResult.ok ['a', 'b'] := by
  refine ⟨headerLoop_oneByte_hang _ [], by decide, by decide⟩

/-- C6: when the chunk containing the terminator has a non-empty remainder
after it, exactly that remainder is written first, followed by the
subsequent chunks in order — nothing dropped, nothing duplicated. -/
theorem remainder_is_first_body (pre : List (List Char)) (d rest : List Char)
    (post : List (List Char))
    (hpre : ∀ c ∈ pre, (throw_away_headers c).1 = false)
    (hd : throw_away_headers d = (true, rest)) (hrest : rest ≠ [])
    (hpost : ∀ c ∈ post, c ≠ []) :
    (streamBody (chunkReads (pre ++ d :: post))).1 =
      .ok (rest ++ post.flatten) := by
  obtain ⟨evs', h1, _⟩ := headerLoop_skip pre (chunkReads (d :: post)) [] hpre
  rw [streamBody, chunkReads_append, h1, chunkReads_cons]
  simp only [headerLoop, hd]
  cases rest with
  | nil => exact absurd rfl hrest
  | cons r0 rt =>
    simp only [bodyStart]
    rw [writeLoop_join post (r0 :: rt) []
      (evs' ++ [Event.sockRead] ++ [Event.fileOpen]) (by simp) hpost]
    simp

/-- Witness for C6 at concrete chunks: remainder `"AB"`, then chunk
`"CD"`. -/
theorem remainder_is_first_body_witness :
    (streamBody (chunkReads
      [['H'], ['X', '\r', '\n', '\r', '\n', 'A', 'B'], ['C', 'D']])).1 =
      .ok ['A', 'B', 'C', 'D'] :=
  remainder_is_first_body [['H']] ['X', '\r', '\n', '\r', '\n', 'A', 'B']
    ['A', 'B'] [['C', 'D']] (by decide) (by decide) (by decide) (by decide)

/-- C7: when the terminator exactly ends its chunk, the body phase still
reads on — the body written is exactly the concatenation of the remaining
chunks — and the output file is opened (created) even when no further
chunk arrives, so a zero-length body yields an existing empty file. -/
theorem empty_remainder_reads_on (pre : List (List Char)) (d : List Char)
    (post : List (List Char))
    (hpre : ∀ c ∈ pre, (throw_away_headers c).1 = false)
    (hd : throw_away_headers d = (true, []))
    (hpost : ∀ c ∈ post, c ≠ []) :
    (streamBody (chunkReads (pre ++ d :: post))).1 = .ok post.flatten ∧
    Event.fileOpen ∈ (streamBody (chunkReads (pre ++ d :: post))).2 := by
  obtain ⟨evs', h1, _⟩ := headerLoop_skip pre (chunkReads (d :: post)) [] hpre
  rw [streamBody, chunkReads_append, h1, chunkReads_cons]
  simp only [headerLoop, hd]
  cases post with
  | nil =>
    constructor
    · simp [chunkReads, bodyStart, writeLoop]
    · simp [chunkReads, bodyStart, writeLoop]
  | cons c t =>
    have hc : c ≠ [] := hpost c (by simp)
    rw [chunkReads_cons]
    simp only [bodyStart]
    constructor
    · rw [writeLoop_join t c []
        (evs' ++ [Event.sockRead] ++ [Event.sockRead, Event.fileOpen]) hc
        (fun x hx => hpost x (by simp [hx]))]
      simp
    · exact writeLoop_keep_evs _ _ _ _ _ (by simp)

/-- Witness for C7 at a concrete response whose headers end the only
chunk: the result is an opened file with an empty body. -/
theorem empty_remainder_reads_on_witness :
    (streamBody (chunkReads [['O', 'K', '\r', '\n', '\r', '\n']])).1 =
      .ok [] ∧
    Event.fileOpen ∈
      (streamBody (chunkReads [['O', 'K', '\r', '\n', '\r', '\n']])).2 :=
  empty_remainder_reads_on [] ['O', 'K', '\r', '\n', '\r', '\n'] []
    (by decide) (by decide) (by decide)

lemma writeLoop_ioError :
    ∀ (mid : List (List Char)) (data body : List Char) (evs : List Event)
      (rest : List ReadRes), data ≠ [] → (∀ c ∈ mid, c ≠ []) →
      (writeLoop (chunkReads mid ++ .ioError :: rest) data body evs).1 =
        .fetchError := by
  intro mid
  induction mid with
  | nil =>
    intro data body evs rest hd _
    cases data with
    | nil => exact absurd rfl hd
    | cons d0 ds => simp [chunkReads, writeLoop]
  | cons m t ih =>
    intro data body evs rest hd hmid
    cases data with
    | nil => exact absurd rfl hd
    | cons d0 ds =>
      have hm : m ≠ [] := hmid m (by simp)
      have := ih m (body ++ d0 :: ds)
        (evs ++ [.fileWrite (d0 :: ds), .sockRead]) rest hm
        (fun x hx => hmid x (by simp [hx]))
      simpa [chunkReads, writeLoop] using this

lemma streamBody_ioError_header (pre : List (List Char)) (rest : List ReadRes)
    (hpre : ∀ c ∈ pre, (throw_away_headers c).1 = false) :
    (streamBody (chunkReads pre ++ .ioError :: rest)).1 = .fetchError := by
  obtain ⟨evs', h1, _⟩ := headerLoop_skip pre (.ioError :: rest) [] hpre
  rw [streamBody, h1]
  simp [headerLoop]

lemma streamBody_ioError_bodyStart (pre : List (List Char)) (d : List Char)
    (rest : List ReadRes)
    (hpre : ∀ c ∈ pre, (throw_away_headers c).1 = false)
    (hd : throw_away_headers d = (true, [])) :
    (streamBody (chunkReads pre ++ .chunk d :: .ioError :: rest)).1 =
      .fetchError := by
  obtain ⟨evs', h1, _⟩ :=
    headerLoop_skip pre (.chunk d :: .ioError :: rest) [] hpre
  rw [streamBody, h1]
  simp only [headerLoop, hd]
  simp [bodyStart]

lemma streamBody_ioError_writeLoop (pre : List (List Char)) (d r : List Char)
    (mid : List (List Char)) (rest : List ReadRes)
    (hpre : ∀ c ∈ pre, (throw_away_headers c).1 = false)
    (hd : throw_away_headers d = (true, r))
    (hmid : ∀ c ∈ mid, c ≠ [])
    (hne : r ≠ [] ∨ mid ≠ []) :
    (streamBody (chunkReads pre ++
      .chunk d :: (chunkReads mid ++ .ioError :: rest))).1 = .fetchError := by
  obtain ⟨evs', h1, _⟩ := headerLoop_skip pre
    (.chunk d :: (chunkReads mid ++ .ioError :: rest)) [] hpre
  rw [streamBody, h1]
  simp only [headerLoop, hd]
  cases r with
  | nil =>
    have hmne : mid ≠ [] := hne.resolve_left (fun h => h rfl)
    cases mid with
    | nil => exact absurd rfl hmne
    | cons m t =>
      have hm : m ≠ [] := hmid m (by simp)
      rw [chunkReads_cons, List.cons_append]
      simp only [bodyStart]
      exact writeLoop_ioError t m [] _ rest hm
        (fun x hx => hmid x (by simp [hx]))
  | cons r0 rt =>
    simp only [bodyStart]
    exact writeLoop_ioError mid (r0 :: rt) [] _ rest (by simp) hmid

/-- C3 (amended): with arguments that pass the source's checks, an
`ssl.SSLError` raised while connecting maps to
`CertificateValidationError`, and an `IOError` raised anywhere inside the
guarded read/write block maps to `FetchError` — whether it strikes a read
of the header loop (after any number of terminator-free chunks), the
extra read taken when the terminator ended its chunk, or any read of the
body write loop; but a plain (non-SSL) connect failure and an `IOError`
from the unguarded request write (line 161) propagate as the raw OS
error, not as `FetchError`. -/
theorem fetch_error_boundaries (url outFile : List Char)
    (caCerts : Option (List Char)) (conn : Conn)
    (proto host path : List Char)
    (hm : urlReMatch url = some (proto, host, path))
    (hout : outFile ≠ [])
    (hca : ¬(optTruthy caCerts = true ∧ proto ≠ SCHEME_HTTPS)) :
    (conn.connectOutcome = .sslError →
      (fetchHttpData url outFile caCerts conn).1 = .certValidationError) ∧
    (conn.connectOutcome = .osError →
      (fetchHttpData url outFile caCerts conn).1 = .uncaughtOSError) ∧
    (conn.connectOutcome = .ok → conn.writeOk = false →
      (fetchHttpData url outFile caCerts conn).1 = .uncaughtOSError) ∧
    (∀ pre rest, conn.connectOutcome = .ok → conn.writeOk = true →
      conn.reads = chunkReads pre ++ .ioError :: rest →
      (∀ c ∈ pre, (throw_away_headers c).1 = false) →
      (fetchHttpData url outFile caCerts conn).1 = .fetchError) ∧
    (∀ pre d rest, conn.connectOutcome = .ok → conn.writeOk = true →
      conn.reads = chunkReads pre ++ .chunk d :: .ioError :: rest →
      (∀ c ∈ pre, (throw_away_headers c).1 = false) →
      throw_away_headers d = (true, []) →
      (fetchHttpData url outFile caCerts conn).1 = .fetchError) ∧
    (∀ pre d r mid rest, conn.connectOutcome = .ok → conn.writeOk = true →
      conn.reads =
        chunkReads pre ++ .chunk d :: (chunkReads mid ++ .ioError :: rest) →
      (∀ c ∈ pre, (throw_away_headers c).1 = false) →
      throw_away_headers d = (true, r) →
      (∀ c ∈ mid, c ≠ []) → (r ≠ [] ∨ mid ≠ []) →
      (fetchHttpData url outFile caCerts conn).1 = .fetchError) := by
  obtain ⟨co, wk, rds⟩ := conn
  have hred : ∀ rds2 : List ReadRes,
      (fetchHttpData url outFile caCerts ⟨.ok, true, rds2⟩).1 =
        (streamBody rds2).1 := by
    intro rds2
    simp [fetchHttpData, hm, hout, hca]
  refine ⟨?_, ?_, ?_, ?_, ?_, ?_⟩
  · intro hco
    simp only at hco
    subst hco
    simp [fetchHttpData, hm, hout, hca]
  · intro hco
    simp only at hco
    subst hco
    simp [fetchHttpData, hm, hout, hca]
  · intro hco hwk
    simp only at hco hwk
    subst hco; subst hwk
    simp [fetchHttpData, hm, hout, hca]
  · intro pre rest hco hwk hrds hpre
    simp only at hco hwk hrds
    subst hco; subst hwk; subst hrds
    rw [hred]
    exact streamBody_ioError_header pre rest hpre
  · intro pre d rest hco hwk hrds hpre hd
    simp only at hco hwk hrds
    subst hco; subst hwk; subst hrds
    rw [hred]
    exact streamBody_ioError_bodyStart pre d rest hpre hd
  · intro pre d r mid rest hco hwk hrds hpre hd hmid hne
    simp only at hco hwk hrds
    subst hco; subst hwk; subst hrds
    rw [hred]
    exact streamBody_ioError_writeLoop pre d r mid rest hpre hd hmid hne

/-- Witness for C3 (amended): an `IOError` striking the third read — in
the middle of the body write loop, after the headers and one body chunk —
surfaces as `FetchError`. -/
theorem fetch_error_boundaries_witness :
    (fetchHttpData ['h', 't', 't', 'p', ':', '/', '/', 'h', '/', 'p'] ['f']
      none ⟨.ok, true,
        [.chunk ['H', '\r', '\n', '\r', '\n', 'A'], .chunk ['B'],
         .ioError]⟩).1 = .fetchError :=
  (fetch_error_boundaries ['h', 't', 't', 'p', ':', '/', '/', 'h', '/', 'p']
    ['f'] none
    ⟨.ok, true,
      [.chunk ['H', '\r', '\n', '\r', '\n', 'A'], .chunk ['B'], .ioError]⟩
    SCHEME_HTTP ['h'] ['/', 'p']
    (by decide) (by decide) (by decide)).2.2.2.2.2
    [] ['H', '\r', '\n', '\r', '\n', 'A'] ['A'] [['B']] [] rfl rfl rfl
    (by decide) (by decide) (by decide) (by decide)

/-- C3 counterexample: a plain connection failure (host unreachable, a
non-SSL `socket.error` at connect) does not surface as `FetchError` (nor
as `CertificateValidationError`): it escapes as the raw OS error. -/
theorem fetch_error_boundaries_counterexample :
    (fetchHttpData ['h', 't', 't', 'p', ':', '/', '/', 'h', '/', 'p'] ['f']
      none ⟨ConnectOutcome.osError, true, []⟩).1 = .uncaughtOSError ∧
    FetchResult.uncaughtOSError ≠ FetchResult.fetchError ∧
    FetchResult.uncaughtOSError ≠ FetchResult.certValidationError := by
  decide

lemma writeLoop_no_close :
    ∀ (reads : List ReadRes) (data body : List Char) (evs : List Event),
      Event.sockClose ∉ evs → Event.sockClose ∉ (writeLoop reads data body evs).2 := by
  intro reads
  induction reads with
  | nil =>
    intro data body evs h
    cases data with
    | nil => simp [writeLoop, h]
    | cons d0 ds => simp [writeLoop, h]
  | cons r rs ih =>
    intro data body evs h
    cases data with
    | nil => simp [writeLoop, h]
    | cons d0 ds =>
      cases r with
      | ioError => simp [writeLoop, h]
      | chunk d =>
        have := ih d (body ++ d0 :: ds)
          (evs ++ [.fileWrite (d0 :: ds), .sockRead]) (by simp [h])
        simpa [writeLoop] using this

lemma bodyStart_no_close (rest : List Char) (reads : List ReadRes)
    (evs : List Event) (h : Event.sockClose ∉ evs) :
    Event.sockClose ∉ (bodyStart rest reads evs).2 := by
  cases rest with
  | nil =>
    cases reads with
    | nil => exact writeLoop_no_close [] [] [] _ (by simp [h])
    | cons r rs =>
      cases r with
      | ioError => simp [bodyStart, h]
      | chunk d =>
        exact writeLoop_no_close rs d [] _ (by simp [h])
  | cons c cs =>
    exact writeLoop_no_close reads (c :: cs) [] _ (by simp [h])

lemma headerLoop_no_close :
    ∀ (reads : List ReadRes) (evs : List Event),
      Event.sockClose ∉ evs → Event.sockClose ∉ (headerLoop reads evs).2 := by
  intro reads
  induction reads with
  | nil => intro evs h; simp [headerLoop, h]
  | cons r rs ih =>
    intro evs h
    cases r with
    | ioError => simp [headerLoop, h]
    | chunk d =>
      simp only [headerLoop]
      cases htaw : throw_away_headers d with
      | mk done rest =>
        cases done with
        | true => exact bodyStart_no_close rest rs _ (by simp [h])
        | false => exact ih _ (by simp [h])

/-- No exit path of `_fetch_http_data` emits a socket close. -/
lemma fetchHttpData_no_close (url outFile : List Char)
    (caCerts : Option (List Char)) (conn : Conn) :
    Event.sockClose ∉ (fetchHttpData url outFile caCerts conn).2 := by
  have hstream : Event.sockClose ∉ (streamBody conn.reads).2 :=
    headerLoop_no_close conn.reads [] (by simp)
  simp only [fetchHttpData]
  split
  · simp
  · split
    · simp
    · split
      · simp
      · split
        · simp
        · simp
        · split
          · simp [hstream]
          · simp

/-- C4: no exit path of the fetch operation ever closes the transport
connection — the source contains no `close` call on the socket at all; the
handle is abandoned to the garbage collector.  (The claim that the handle
is closed before returning on every exit path is therefore false on every
path that opens a connection.) -/
theorem socket_never_closed (url outFile : List Char)
    (caCerts : Option (List Char)) (fs : List (List Char)) (conn : Conn) :
    Event.sockClose ∉ (fetchData url outFile caCerts fs conn).2.1 := by
  have hcls : ∀ fs2 evs, Event.sockClose ∉ evs →
      Event.sockClose ∉ (classifyURL url outFile caCerts conn fs2 evs).2.1 := by
    intro fs2 evs h
    simp only [classifyURL]
    split
    · simp [h, fetchHttpData_no_close url outFile caCerts conn]
    · simpa using h
  cases hd : isdir fs (dirname outFile) with
  | true => simpa [fetchData, hd] using hcls fs [] (by simp)
  | false =>
    by_cases hde : dirname outFile = []
    · simp [fetchData, hd, hde, isdir]
    · simpa [fetchData, hd, hde] using
        hcls (dirname outFile :: fs) [.mkdirs (dirname outFile)] (by simp)

lemma takeNoSlash_append (host t : List Char) (h : '/' ∉ host) :
    takeNoSlash (host ++ '/' :: t) = host := by
  induction host with
  | nil => simp [takeNoSlash]
  | cons c cs ih =>
    simp only [List.mem_cons, not_or] at h
    have hc : ¬(c = '/') := fun hcc => h.1 hcc.symm
    rw [List.cons_append]
    simp only [takeNoSlash]
    rw [if_neg hc, ih h.2]

lemma dropToSlash_append (host t : List Char) (h : '/' ∉ host) :
    dropToSlash (host ++ '/' :: t) = '/' :: t := by
  induction host with
  | nil => simp [dropToSlash]
  | cons c cs ih =>
    simp only [List.mem_cons, not_or] at h
    have hc : ¬(c = '/') := fun hcc => h.1 hcc.symm
    rw [List.cons_append]
    simp only [dropToSlash]
    rw [if_neg hc, ih h.2]

lemma takeLine_no_newline (p : List Char) (h : '\n' ∉ p) :
    takeLine p = p := by
  induction p with
  | nil => rfl
  | cons c cs ih =>
    simp only [List.mem_cons, not_or] at h
    have hc : ¬(c = '\n') := fun hcc => h.1 hcc.symm
    simp only [takeLine]
    rw [if_neg hc, ih h.2]

/-- C5 (amended): the regex decomposition recovers the scheme, host and
path exactly — and hence rebuilding `scheme://host/path` gives back the
original URL — for every well-formed URL whose host is non-empty without
`'/'` and whose path contains no newline character.  (With a newline in
the path the regex's `.` stops there and part of the path is lost, see the
counterexample.) -/
theorem url_decomposition_exact (scheme host p : List Char)
    (hs : scheme = SCHEME_HTTP ∨ scheme = SCHEME_HTTPS)
    (hhost : host ≠ []) (hslash : '/' ∉ host) (hnl : '\n' ∉ p) :
    urlReMatch (scheme ++ SEP ++ host ++ '/' :: p) =
      some (scheme, host, '/' :: p) := by
  rcases hs with hs | hs <;> subst hs
  · have hpre : (SCHEME_HTTPS ++ SEP).isPrefixOf
        (SCHEME_HTTP ++ SEP ++ (host ++ '/' :: p)) = false := by
      simp [SCHEME_HTTPS, SCHEME_HTTP, SEP, List.isPrefixOf]
    have hpre2 : (SCHEME_HTTP ++ SEP).isPrefixOf
        (SCHEME_HTTP ++ SEP ++ (host ++ '/' :: p)) = true := by
      simp [SCHEME_HTTP, SEP, List.isPrefixOf]
    have hdrop : (SCHEME_HTTP ++ SEP ++ (host ++ '/' :: p)).drop 7 =
        host ++ '/' :: p := by
      simp [SCHEME_HTTP, SEP]
    rw [List.append_assoc]
    simp only [urlReMatch, hpre, hpre2, Bool.false_eq_true, if_false, if_true,
      hdrop]
    rw [dropToSlash_append host p hslash]
    simp [takeNoSlash_append host p hslash, hhost, takeLine_no_newline p hnl]
  · have hpre : (SCHEME_HTTPS ++ SEP).isPrefixOf
        (SCHEME_HTTPS ++ SEP ++ (host ++ '/' :: p)) = true := by
      simp [SCHEME_HTTPS, SEP, List.isPrefixOf]
    have hdrop : (SCHEME_HTTPS ++ SEP ++ (host ++ '/' :: p)).drop 8 =
        host ++ '/' :: p := by
      simp [SCHEME_HTTPS, SEP]
    rw [List.append_assoc]
    simp only [urlReMatch, hpre, if_true, hdrop]
    rw [dropToSlash_append host p hslash]
    simp [takeNoSlash_append host p hslash, hhost, takeLine_no_newline p hnl]

/-- Witness for C5 (amended) at the concrete URL `http://host/path`. -/
theorem url_decomposition_exact_witness :
    urlReMatch ['h', 't', 't', 'p', ':', '/', '/', 'h', 'o', 's', 't',
      '/', 'p', 'a', 't', 'h'] =
    some (['h', 't', 't', 'p'], ['h', 'o', 's', 't'],
      ['/', 'p', 'a', 't', 'h']) :=
  url_decomposition_exact SCHEME_HTTP ['h', 'o', 's', 't'] ['p', 'a', 't', 'h']
    (Or.inl rfl) (by decide) (by decide) (by decide)

/-- C5 counterexample: for the URL `"http://h/a\nb"` — well-formed by the
claim's conditions (scheme `http`, host `"h"` non-empty without `'/'`) —
the decomposition returns path `"/a"`, losing `"\nb"`, so rebuilding
`scheme + "://" + host + path` does not give back the original URL. -/
theorem url_decomposition_counterexample :
    urlReMatch ['h', 't', 't', 'p', ':', '/', '/', 'h', '/', 'a', '\n', 'b'] =
      some (['h', 't', 't', 'p'], ['h'], ['/', 'a']) ∧
    ['h', 't', 't', 'p'] ++ SEP ++ ['h'] ++ ['/', 'a'] ≠
      ['h', 't', 't', 'p', ':', '/', '/', 'h', '/', 'a', '\n', 'b'] := by
  decide

/-- C8: calling `fetch_data` with an empty `out_file` does not fail with
`WrongRequestError` — for every url, ca_certs, file system and transport
it dies earlier, in `os.makedirs(os.path.dirname(''))`, i.e.
`os.makedirs('')`, which raises an uncaught `OSError`; the explicit
`if not out_file` check of line 138 is unreachable for this input. -/
theorem empty_out_file_is_oserror (url : List Char)
    (caCerts : Option (List Char)) (fs : List (List Char)) (conn : Conn) :
    (fetchData url [] caCerts fs conn).1 = .uncaughtOSError := by
  have hdir : dirname [] = [] := rfl
  simp [fetchData, hdir, isdir]

/-- C9: the parent directory of `out_file` is present in the file system
after every call of `fetch_data`, whatever the call's outcome — including
calls that end in `UnknownURLformatError` or `WrongRequestError` —
provided the directory-creation step itself succeeds (the directory
already exists, or is non-empty so `os.makedirs` can create it). -/
theorem fetch_data_creates_parent_dir (url outFile : List Char)
    (caCerts : Option (List Char)) (fs : List (List Char)) (conn : Conn)
    (h : dirname outFile ∈ fs ∨ dirname outFile ≠ []) :
    dirname outFile ∈ (fetchData url outFile caCerts fs conn).2.2 := by
  have hfs : ∀ fs2 evs, dirname outFile ∈ fs2 →
      dirname outFile ∈ (classifyURL url outFile caCerts conn fs2 evs).2.2 := by
    intro fs2 evs hmem
    simp only [classifyURL]
    split
    · simpa using hmem
    · simpa using hmem
  cases hd : isdir fs (dirname outFile) with
  | true =>
    have hmem : dirname outFile ∈ fs := by
      have h2 := hd
      simp [isdir] at h2
      exact h2.2
    simpa [fetchData, hd] using hfs fs [] hmem
  | false =>
    by_cases hde : dirname outFile = []
    · have hmem : dirname outFile ∈ fs := h.resolve_right (fun hne => hne hde)
      have hgoal : (fetchData url outFile caCerts fs conn).2.2 = fs := by
        simp [fetchData, hd, hde, isdir]
      rw [hgoal]
      exact hmem
    · simpa [fetchData, hd, hde] using
        hfs (dirname outFile :: fs) [.mkdirs (dirname outFile)] (by simp)

/-- Witness for C9: a call failing with `UnknownURLformatError` (an `ftp`
URL) still leaves the freshly created parent directory behind. -/
theorem fetch_data_creates_parent_dir_witness :
    (fetchData ['f', 't', 'p', ':', '/', '/', 'h', '/', 'p']
      ['/', 't', 'm', 'p', '/', 'f'] none [] ⟨.ok, true, []⟩).1 =
      .unknownURLformat ∧
    dirname ['/', 't', 'm', 'p', '/', 'f'] ∈
      (fetchData ['f', 't', 'p', ':', '/', '/', 'h', '/', 'p']
        ['/', 't', 'm', 'p', '/', 'f'] none [] ⟨.ok, true, []⟩).2.2 :=
  ⟨by decide, fetch_data_creates_parent_dir
    ['f', 't', 'p', ':', '/', '/', 'h', '/', 'p']
    ['/', 't', 'm', 'p', '/', 'f'] none [] ⟨.ok, true, []⟩
    (Or.inr (by decide))⟩

/-! ### Lemmas about Python string stripping and the kickstart round trip -/

lemma dropWhile_append_keep {p : Char → Bool} {l1 l2 : List Char}
    (h1 : l1.dropWhile p = l1) (hne : l1 ≠ []) :
    (l1 ++ l2).dropWhile p = l1 ++ l2 := by
  cases l1 with
  | nil => exact absurd rfl hne
  | cons c t =>
    have hp : ¬ p c = true := by
      have := List.dropWhile_eq_self_iff.mp h1 (by simp)
      simpa using this
    rw [List.cons_append, List.dropWhile_cons, if_neg hp]

lemma stripWs_kvLine_pos (key v : List Char) (hk : goodKey key)
    (hv2 : v.reverse.dropWhile pySpace = v.reverse) (hve : v ≠ []) :
    stripWs (kvLine key v) = key ++ [' ', '=', ' '] ++ v := by
  obtain ⟨hkne, hk1, hk2, hk3⟩ := hk
  have hvr : v.reverse ≠ [] := by simpa using hve
  unfold stripWs stripP kvLine
  simp only [List.append_assoc]
  have hfour : List.dropWhile pySpace
      ([' ', ' ', ' ', ' '] ++ (key ++ ([' ', '=', ' '] ++ v))) =
      List.dropWhile pySpace (key ++ ([' ', '=', ' '] ++ v)) := by
    simp [List.dropWhile_cons, pySpace]
  rw [hfour, dropWhile_append_keep hk1 hkne]
  simp only [List.reverse_append, List.append_assoc]
  rw [dropWhile_append_keep hv2 hvr]
  simp

lemma stripWs_kvLine_nil (key : List Char) (hk : goodKey key) :
    stripWs (kvLine key []) = key ++ [' ', '='] := by
  obtain ⟨hkne, hk1, hk2, hk3⟩ := hk
  unfold stripWs stripP kvLine
  simp only [List.append_assoc, List.append_nil]
  have hfour : List.dropWhile pySpace
      ([' ', ' ', ' ', ' '] ++ (key ++ [' ', '=', ' '])) =
      List.dropWhile pySpace (key ++ [' ', '=', ' ']) := by
    simp [List.dropWhile_cons, pySpace]
  rw [hfour, dropWhile_append_keep hk1 hkne]
  simp only [List.reverse_append]
  have hmid : List.dropWhile pySpace ([' ', '=', ' '].reverse ++ key.reverse) =
      ['=', ' '] ++ key.reverse := by
    simp [List.dropWhile_cons, pySpace]
  rw [hmid]
  simp

lemma stripWs_key_space (key : List Char) (hk : goodKey key) :
    stripWs (key ++ [' ']) = key := by
  obtain ⟨hkne, hk1, hk2, hk3⟩ := hk
  unfold stripWs stripP
  rw [dropWhile_append_keep hk1 hkne]
  rw [List.reverse_append]
  have hsp : List.dropWhile pySpace ([' '].reverse ++ key.reverse) =
      List.dropWhile pySpace key.reverse := by
    simp [List.dropWhile_cons, pySpace]
  rw [hsp, hk2, List.reverse_reverse]

lemma strip_post_value (v : List Char) (hv : goodValue v) :
    stripQuotes (stripWs (' ' :: v)) = v := by
  obtain ⟨hnl, hv1, hv2, hv3, hv4⟩ := hv
  have hws : stripWs (' ' :: v) = v := by
    unfold stripWs stripP
    have hsp : List.dropWhile pySpace (' ' :: v) = List.dropWhile pySpace v := by
      simp [List.dropWhile_cons, pySpace]
    rw [hsp, hv1, hv2, List.reverse_reverse]
  rw [hws]
  unfold stripQuotes stripP
  rw [hv3, hv4, List.reverse_reverse]

lemma partitionEq_append (l1 rest : List Char) (h : '=' ∉ l1) :
    partitionEq (l1 ++ '=' :: rest) = (l1, rest) := by
  induction l1 with
  | nil => simp [partitionEq]
  | cons c cs ih =>
    simp only [List.mem_cons, not_or] at h
    have hc : ¬(c = '=') := fun hcc => h.1 hcc.symm
    rw [List.cons_append]
    simp only [partitionEq]
    rw [if_neg hc, ih h.2]

lemma handle_line_kvLine (d : OSCAPdata) (key v : List Char)
    (hk : goodKey key) (hv : goodValue v) :
    handle_line d (kvLine key v) = dispatchKey d key v := by
  by_cases hve : v = []
  · subst hve
    simp only [handle_line]
    rw [stripWs_kvLine_nil key hk]
    have hsplit : key ++ [' ', '='] = (key ++ [' ']) ++ '=' :: [] := by simp
    rw [hsplit, partitionEq_append (key ++ [' ']) [] (by simp [hk.2.2.2])]
    rw [stripWs_key_space key hk]
    rfl
  · simp only [handle_line]
    rw [stripWs_kvLine_pos key v hk hv.2.2.1 hve]
    have hsplit : key ++ [' ', '=', ' '] ++ v =
        (key ++ [' ']) ++ '=' :: (' ' :: v) := by simp
    rw [hsplit, partitionEq_append (key ++ [' ']) (' ' :: v)
      (by simp [hk.2.2.2])]
    rw [stripWs_key_space key hk]
    rw [strip_post_value v hv]

lemma dispatchKey_ct (d : OSCAPdata) (v : List Char) :
    dispatchKey d keyContentType v = parseContentType d v := by
  unfold dispatchKey
  rw [if_pos rfl]

lemma dispatchKey_cu (d : OSCAPdata) (v : List Char) :
    dispatchKey d keyContentUrl v = parseContentUrl d v := by
  unfold dispatchKey
  rw [if_neg (by decide), if_pos rfl]

lemma dispatchKey_ds (d : OSCAPdata) (v : List Char) :
    dispatchKey d keyDatastreamId v = .ok { d with datastream_id := v } := by
  unfold dispatchKey
  rw [if_neg (by decide), if_neg (by decide), if_pos rfl]

lemma dispatchKey_profile (d : OSCAPdata) (v : List Char) :
    dispatchKey d keyProfile v = .ok { d with profile_id := v } := by
  unfold dispatchKey
  rw [if_neg (by decide), if_neg (by decide), if_neg (by decide), if_pos rfl]

lemma dispatchKey_xid (d : OSCAPdata) (v : List Char) :
    dispatchKey d keyXccdfId v = .ok { d with xccdf_id := v } := by
  unfold dispatchKey
  rw [if_neg (by decide), if_neg (by decide), if_neg (by decide),
    if_neg (by decide), if_pos rfl]

lemma dispatchKey_xp (d : OSCAPdata) (v : List Char) :
    dispatchKey d keyXccdfPath v = .ok { d with xccdf_path := v } := by
  unfold dispatchKey
  rw [if_neg (by decide), if_neg (by decide), if_neg (by decide),
    if_neg (by decide), if_neg (by decide), if_pos rfl]

lemma dispatchKey_cp (d : OSCAPdata) (v : List Char) :
    dispatchKey d keyCpePath v = .ok { d with cpe_path := v } := by
  unfold dispatchKey
  rw [if_neg (by decide), if_neg (by decide), if_neg (by decide),
    if_neg (by decide), if_neg (by decide), if_neg (by decide), if_pos rfl]

lemma dispatchKey_cert (d : OSCAPdata) (v : List Char) :
    dispatchKey d keyCertificates v = .ok { d with certificates := v } := by
  unfold dispatchKey
  rw [if_neg (by decide), if_neg (by decide), if_neg (by decide),
    if_neg (by decide), if_neg (by decide), if_neg (by decide),
    if_neg (by decide), if_pos rfl]


lemma runLines_step_ct (d0 : OSCAPdata) (v : List Char)
    (rest : List (List Char)) (hv : goodValue v)
    (hct : v = kDatastream ∨ v = kRPM) :
    runLines d0 (kvLine keyContentType v :: rest) =
      runLines { d0 with content_type := v } rest := by
  have h := handle_line_kvLine d0 keyContentType v (by decide) hv
  rw [dispatchKey_ct] at h
  unfold parseContentType at h
  rw [if_pos hct] at h
  simp only [runLines, h]

lemma runLines_step_cu (d0 : OSCAPdata) (v : List Char)
    (rest : List (List Char)) (hv : goodValue v)
    (hurl : (SCHEME_HTTP ++ SEP).isPrefixOf v = true ∨
      (SCHEME_HTTPS ++ SEP).isPrefixOf v = true)
    (hslash : v.contains '/' = true) :
    runLines d0 (kvLine keyContentUrl v :: rest) =
      runLines { d0 with content_url := v, content_name := afterLastSlash v }
        rest := by
  have h := handle_line_kvLine d0 keyContentUrl v (by decide) hv
  rw [dispatchKey_cu] at h
  unfold parseContentUrl at h
  rw [if_pos hurl, if_pos hslash] at h
  simp only [runLines, h]

lemma runLines_step_profile (d0 : OSCAPdata) (v : List Char)
    (rest : List (List Char)) (hv : goodValue v) :
    runLines d0 (kvLine keyProfile v :: rest) =
      runLines { d0 with profile_id := v } rest := by
  have h := handle_line_kvLine d0 keyProfile v (by decide) hv
  rw [dispatchKey_profile] at h
  simp only [runLines, h]

lemma runLines_opt_ds (d0 : OSCAPdata) (v : List Char)
    (rest : List (List Char)) (hv : goodValue v)
    (h0 : d0.datastream_id = []) :
    runLines d0 ((if v ≠ [] then [kvLine keyDatastreamId v] else []) ++ rest) =
      runLines { d0 with datastream_id := v } rest := by
  by_cases hve : v = []
  · subst hve
    have hid : { d0 with datastream_id := ([] : List Char) } = d0 := by
      rw [← h0]
    simp [hid]
  · rw [if_pos hve]
    have h := handle_line_kvLine d0 keyDatastreamId v (by decide) hv
    rw [dispatchKey_ds] at h
    simp only [List.cons_append, List.nil_append, runLines, h]
    rfl

lemma runLines_opt_xid (d0 : OSCAPdata) (v : List Char)
    (rest : List (List Char)) (hv : goodValue v)
    (h0 : d0.xccdf_id = []) :
    runLines d0 ((if v ≠ [] then [kvLine keyXccdfId v] else []) ++ rest) =
      runLines { d0 with xccdf_id := v } rest := by
  by_cases hve : v = []
  · subst hve
    have hid : { d0 with xccdf_id := ([] : List Char) } = d0 := by
      rw [← h0]
    simp [hid]
  · rw [if_pos hve]
    have h := handle_line_kvLine d0 keyXccdfId v (by decide) hv
    rw [dispatchKey_xid] at h
    simp only [List.cons_append, List.nil_append, runLines, h]
    rfl

lemma runLines_opt_xp (d0 : OSCAPdata) (v : List Char)
    (rest : List (List Char)) (hv : goodValue v)
    (h0 : d0.xccdf_path = []) :
    runLines d0 ((if v ≠ [] then [kvLine keyXccdfPath v] else []) ++ rest) =
      runLines { d0 with xccdf_path := v } rest := by
  by_cases hve : v = []
  · subst hve
    have hid : { d0 with xccdf_path := ([] : List Char) } = d0 := by
      rw [← h0]
    simp [hid]
  · rw [if_pos hve]
    have h := handle_line_kvLine d0 keyXccdfPath v (by decide) hv
    rw [dispatchKey_xp] at h
    simp only [List.cons_append, List.nil_append, runLines, h]
    rfl

lemma runLines_opt_cp (d0 : OSCAPdata) (v : List Char)
    (rest : List (List Char)) (hv : goodValue v)
    (h0 : d0.cpe_path = []) :
    runLines d0 ((if v ≠ [] then [kvLine keyCpePath v] else []) ++ rest) =
      runLines { d0 with cpe_path := v } rest := by
  by_cases hve : v = []
  · subst hve
    have hid : { d0 with cpe_path := ([] : List Char) } = d0 := by
      rw [← h0]
    simp [hid]
  · rw [if_pos hve]
    have h := handle_line_kvLine d0 keyCpePath v (by decide) hv
    rw [dispatchKey_cp] at h
    simp only [List.cons_append, List.nil_append, runLines, h]
    rfl

lemma runLines_last_cert (d0 : OSCAPdata) (v : List Char) (hv : goodValue v)
    (h0 : d0.certificates = []) :
    runLines d0 (if v ≠ [] then [kvLine keyCertificates v] else []) =
      .ok { d0 with certificates := v } := by
  by_cases hve : v = []
  · subst hve
    have hid : { d0 with certificates := ([] : List Char) } = d0 := by
      rw [← h0]
    simp [hid, runLines]
  · rw [if_pos hve]
    have h := handle_line_kvLine d0 keyCertificates v (by decide) hv
    rw [dispatchKey_cert] at h
    simp only [runLines, h]

/-- C10: configuration round trip — for every `OSCAPdata` whose
content type is supported, whose content url has a supported prefix and
contains a `'/'`, and whose field values contain no newline, no leading or
trailing whitespace and no leading or trailing double quote, feeding the
lines strictly between `%addon` and `%end` of its string form to
`handle_line` of a fresh `OSCAPdata` reproduces all eight configuration
fields and derives `content_name` from the url's last component. -/
theorem kickstart_roundtrip (d : OSCAPdata)
    (hct : d.content_type = kDatastream ∨ d.content_type = kRPM)
    (hurl : (SCHEME_HTTP ++ SEP).isPrefixOf d.content_url = true ∨
      (SCHEME_HTTPS ++ SEP).isPrefixOf d.content_url = true)
    (hslash : d.content_url.contains '/' = true)
    (hv1 : goodValue d.content_type) (hv2 : goodValue d.content_url)
    (hv3 : goodValue d.datastream_id) (hv4 : goodValue d.xccdf_id)
    (hv5 : goodValue d.profile_id) (hv6 : goodValue d.xccdf_path)
    (hv7 : goodValue d.cpe_path) (hv8 : goodValue d.certificates) :
    runLines freshData (addonLines d) =
      .ok { d with content_name := afterLastSlash d.content_url } := by
  obtain ⟨ct, cu, ds, xid, prof, xp, cp, cn, certs⟩ := d
  simp only [addonLines, freshData] at *
  simp only [List.cons_append, List.nil_append, List.append_assoc]
  rw [runLines_step_ct _ ct _ hv1 hct]
  rw [runLines_step_cu _ cu _ hv2 hurl hslash]
  rw [runLines_opt_ds _ ds _ hv3 rfl]
  rw [runLines_opt_xid _ xid _ hv4 rfl]
  rw [runLines_opt_xp _ xp _ hv6 rfl]
  rw [runLines_opt_cp _ cp _ hv7 rfl]
  rw [runLines_step_profile _ prof _ hv5]
  rw [runLines_last_cert _ certs hv8 rfl]


/-- Witness for C10 at a concrete configuration (datastream content over
https, with a datastream id and certificates, empty xccdf/cpe paths). -/
theorem kickstart_roundtrip_witness :
    runLines freshData (addonLines
      ⟨kDatastream,
       ['h', 't', 't', 'p', 's', ':', '/', '/', 'h', '/', 'c', '.', 'x', 'm', 'l'],
       ['d', 's', '1'], [], ['p', 'r', 'o', 'f', '1'], [], [], ['o', 'l', 'd'],
       ['/', 'c', 'a', '.', 'p', 'e', 'm']⟩) =
    .ok ⟨kDatastream,
      ['h', 't', 't', 'p', 's', ':', '/', '/', 'h', '/', 'c', '.', 'x', 'm', 'l'],
      ['d', 's', '1'], [], ['p', 'r', 'o', 'f', '1'], [], [],
      ['c', '.', 'x', 'm', 'l'], ['/', 'c', 'a', '.', 'p', 'e', 'm']⟩ :=
  kickstart_roundtrip
    ⟨kDatastream,
     ['h', 't', 't', 'p', 's', ':', '/', '/', 'h', '/', 'c', '.', 'x', 'm', 'l'],
     ['d', 's', '1'], [], ['p', 'r', 'o', 'f', '1'], [], [], ['o', 'l', 'd'],
     ['/', 'c', 'a', '.', 'p', 'e', 'm']⟩
    (Or.inl rfl) (Or.inr (by decide)) (by decide) (by decide) (by decide)
    (by decide) (by decide) (by decide) (by decide) (by decide) (by decide)
